import Mathlib

/-!
# Verification of the melody-preprocessing pipeline (`preprocess_own.py`)

A shallow embedding of the preprocessing pipeline that converts symbolic
music scores into the integer time series used for sequence-model training:

* duration filtering (`has_acceptable_durations`),
* key normalization by transposition (`transpose`),
* time-step encoding (`encode_song`),
* dataset assembly (`create_single_file_dataset`),
* vocabulary mapping (`create_mapping`),
* corpus-to-integer translation (`convert_songs_to_int`), and
* training-sequence generation (`generate_training_sequences`).

Modelling conventions:

* Python strings are `List Char`; Python's whitespace `str.split()` is
  `splitWs`.
* `quarterLength` durations (floats/Fractions in music21) are `ℚ`; the
  notation library's MIDI pitch numbers are `ℤ`.
* Python's `int(x)` truncation toward zero on an exact rational is `pyInt`.
* Python exceptions are the inductive `PyExc`.  The source raises only the
  builtin `KeyError` and `UnboundLocalError`; the constructors named after
  the specification's error taxonomy (`unsupportedModeError`,
  `unknownSymbolError`, `nonQuantizableDurationError`) exist solely so that
  the specification's claims about error behaviour can be stated and
  compared against what the source actually does.
* File I/O (directory walks, reading and writing artifacts, the JSON dump)
  is plumbing and is not modelled; each pipeline stage is embedded as a
  function of the in-memory data it actually computes on.
-/

namespace Preprocess

/-- A token of the encoded symbol stream: an integer MIDI pitch, the rest
marker `"r"`, or the carry marker `"_"`. -/
inductive Token where
  | num (midi : ℤ)
  | rest
  | carry
deriving DecidableEq

/-- The kind of one event of the flattened stream `song.flat.notesAndRests`:
a pitched note (`m21.note.Note`, carrying `pitch.midi`) or a rest
(`m21.note.Rest`). -/
inductive EventKind where
  | note (midi : ℤ)
  | rest
deriving DecidableEq

/-- One event of the flattened, time-ordered stream: its kind together with
its `duration.quarterLength`. -/
structure MEvent where
  kind : EventKind
  duration : ℚ
deriving DecidableEq

/-- A music21 key: the MIDI number of its tonic pitch (music21 gives a pitch
with an implicit octave, e.g. `m21.pitch.Pitch "C"` is MIDI 60) and its
mode string (`"major"`, `"minor"`, `"dorian"`, ...). -/
structure Key where
  tonic : ℤ
  mode : List Char
deriving DecidableEq

/-- A score, as the pipeline reads it: the key declared at
`measures_part0[0][4]` when that element is an `m21.key.Key` instance
(`none` otherwise), the key the external estimation `song.analyze "key"`
would return, and the flattened event stream `song.flat.notesAndRests`. -/
structure Score where
  declaredKey : Option Key
  analyzedKey : Key
  events : List MEvent
deriving DecidableEq

/-- Python exceptions.  The source code raises only `keyError` (from a dict
lookup `mappings[symbol]`) and `unboundLocalError` (from reading the local
`interval` when it was never assigned).  The remaining constructors name the
error classes that appear in the specification's error taxonomy; they are
never produced by the embedded source and exist only so the specification's
claims can be stated. -/
inductive PyExc where
  | keyError (symbol : List Char)
  | unboundLocalError
  | unsupportedModeError
  | unknownSymbolError
  | nonQuantizableDurationError
deriving DecidableEq

/-- The constant `ACCEPTABLE_DURATIONS`: the allowed quarter-length values. -/
def ACCEPTABLE_DURATIONS : List ℚ :=
  [1/4, 1/2, 3/4, 1, 3/2, 2, 3, 4]

/-- Embedding of `has_acceptable_durations(song, acceptable_durations)`: iterates over
`song.flat.notesAndRests` and returns `False` on the first event whose
`duration.quarterLength` is not in the list, `True` otherwise. -/
def has_acceptable_durations (song : List MEvent) (acceptable_durations : List ℚ) : Bool :=
  match song with
  | [] => true
  | note :: later =>
    if note.duration ∈ acceptable_durations then
      has_acceptable_durations later acceptable_durations
    else
      false

/-- Python's `int(q)` on an exact rational: truncation toward zero. -/
def pyInt (q : ℚ) : ℤ :=
  Int.tdiv q.num q.den

/-- The count `steps = int(event.duration.quarterLength / time_step)` from
`encode_song`, as a natural number of loop iterations (`range(steps)` is
empty when `steps <= 0`, exactly as `Int.toNat` sends nonpositive integers
to `0`). -/
def stepsQ (d : ℚ) (time_step : ℚ) : ℕ :=
  (pyInt (d / time_step)).toNat

/-- The `symbol` chosen for an event in `encode_song`: `event.pitch.midi`
for a note, `"r"` for a rest. -/
def symbolOf (event : MEvent) : Token :=
  match event.kind with
  | .note m => .num m
  | .rest => .rest

/-- Embedding of `encode_song(song, time_step=0.25)`: for each event of
`song.flat.notesAndRests`, in order, append to the encoding one item per
`step in range(steps)` — the event's symbol when `step == 0`, the carry
marker `"_"` otherwise.  (The final `" ".join` serialization of the token
list into the artifact string is I/O-side plumbing.) -/
def encode_song (song : List MEvent) (time_step : ℚ) : List Token :=
  song.flatMap (fun event =>
    (List.range (stepsQ event.duration time_step)).map
      (fun step => if step = 0 then symbolOf event else Token.carry))

/-- The pitch `m21.pitch.Pitch "C"` (implicit octave 4): MIDI 60. -/
def pitchC : ℤ := 60

/-- The pitch `m21.pitch.Pitch "A"` (implicit octave 4): MIDI 69. -/
def pitchA : ℤ := 69

/-- The key `transpose` works with: the declared key signature object when
it is a concrete `m21.key.Key`, otherwise the result of the statistical
estimation `song.analyze("key")`. -/
def resolvedKey (song : Score) : Key :=
  song.declaredKey.getD song.analyzedKey

/-- Transposition of one event by an interval of `itv` semitones: notes are
shifted, rests are unaffected. -/
def shiftEvent (itv : ℤ) (e : MEvent) : MEvent :=
  match e.kind with
  | .note m => ⟨.note (m + itv), e.duration⟩
  | .rest => e

/-- Transposition of a key object by `itv` semitones. -/
def shiftKey (itv : ℤ) (k : Key) : Key :=
  ⟨k.tonic + itv, k.mode⟩

/-- Embedding of `song.transpose(interval)`: a new score in which every pitched element
— the notes and any contained key objects — is shifted by the interval;
the statistical key estimate of the transposed score is the transposed
estimate (the external analyzer is covariant under transposition). -/
def transposeBy (song : Score) (itv : ℤ) : Score :=
  ⟨song.declaredKey.map (shiftKey itv),
   shiftKey itv song.analyzedKey,
   song.events.map (shiftEvent itv)⟩

/-- Embedding of `transpose(song)`: read or estimate the key; if `key.mode == "major"`,
set `interval` to `Interval(key.tonic, Pitch("C"))`; if
`key.mode == "minor"`, set it to `Interval(key.tonic, Pitch("A"))` (the two
`if`s are sequential, not an `if/elif/else`); then return
`song.transpose(interval)`.  When the mode is neither string, `interval`
was never assigned and reading it raises `UnboundLocalError`. -/
def transpose (song : Score) : Except PyExc Score :=
  let key := resolvedKey song
  let interval0 : Option ℤ := none
  let interval1 : Option ℤ :=
    if key.mode = "major".data then some (pitchC - key.tonic) else interval0
  let interval2 : Option ℤ :=
    if key.mode = "minor".data then some (pitchA - key.tonic) else interval1
  match interval2 with
  | some itv => .ok (transposeBy song itv)
  | none => .error .unboundLocalError

/-- Helper for `splitWs`: accumulates the current word (reversed). -/
def splitWsAux : List Char → List Char → List (List Char)
  | [], acc => if acc = [] then [] else [acc.reverse]
  | c :: cs, acc =>
    if c = ' ' then
      if acc = [] then splitWsAux cs [] else acc.reverse :: splitWsAux cs []
    else
      splitWsAux cs (c :: acc)

/-- Python's `str.split()` (no separator argument): splits on runs of
whitespace and never yields empty words.  The corpus strings built by this
pipeline contain `' '` as their only whitespace character. -/
def splitWs (s : List Char) : List (List Char) :=
  splitWsAux s []

/-- Embedding of `create_single_file_dataset(dataset_path, file_dataset_path,
sequence_length)`: with `new_song_delimiter = "/ " * sequence_length`,
fold `songs = songs + song + " " + new_song_delimiter` over the encoded
song artifacts (the strings read back from the per-score files), then drop
the final character (`songs[:-1]`).  The directory walk and the final file
write are plumbing; the artifact strings are the input here. -/
def create_single_file_dataset (artifacts : List (List Char)) (sequence_length : ℕ) :
    List Char :=
  let new_song_delimiter := (List.replicate sequence_length ['/', ' ']).flatten
  let songs := artifacts.foldl (fun songs song => songs ++ song ++ [' '] ++ new_song_delimiter) []
  songs.dropLast

/-- Embedding of `create_mapping(songs, mapping_path)`: split the corpus, collect
`vocabulary = list(set(songs))`, and build `{symbol: i}` by enumeration.
CPython's set iteration order is unspecified; `List.dedup` fixes one
concrete duplicate-free enumeration of the same set, and nothing proved
below depends on which enumeration is used.  The JSON dump is plumbing. -/
def create_mapping (songs : List Char) : List (List Char × ℕ) :=
  let tokens := splitWs songs
  let vocabulary := tokens.dedup
  vocabulary.enum.map (fun p => (p.2, p.1))

/-- Python dict lookup returning an `Option`; the mappings produced by
`create_mapping` have pairwise distinct keys, for which first-match lookup
is dict lookup. -/
def dictGet : List (List Char × ℕ) → List Char → Option ℕ
  | [], _ => none
  | kv :: later, s => if kv.1 = s then some kv.2 else dictGet later s

/-- The loop of `convert_songs_to_int`: `int_songs.append(mappings[symbol])`
for each symbol in order; the subscript `mappings[symbol]` raises
`KeyError(symbol)` at the first symbol with no entry. -/
def convertTokens (mappings : List (List Char × ℕ)) : List (List Char) → Except PyExc (List ℕ)
  | [] => .ok []
  | t :: later =>
    match dictGet mappings t with
    | none => .error (.keyError t)
    | some c =>
      match convertTokens mappings later with
      | .ok cs => .ok (c :: cs)
      | .error e => .error e

/-- Embedding of `convert_songs_to_int(songs)`: split the corpus string and translate
every symbol through the mapping (read back from `mapping.json`, passed
here as `mappings`). -/
def convert_songs_to_int (songs : List Char) (mappings : List (List Char × ℕ)) :
    Except PyExc (List ℕ) :=
  convertTokens mappings (splitWs songs)

/-- Embedding of `keras.utils.to_categorical(code, num_classes)` for one code: the 0/1
row of length `num_classes` with a single `1` at index `code` (when
`code < num_classes`). -/
def to_categorical (num_classes : ℕ) (code : ℕ) : List ℕ :=
  (List.range num_classes).map (fun j => if j = code then 1 else 0)

/-- Embedding of `generate_training_sequences(sequence_length)` after the corpus has
been loaded and translated to `int_songs` (the file read and
`convert_songs_to_int` call are the preceding stages): slide a window of
size `sequence_length` with stride 1, collecting
`inputs.append(int_songs[i:i+sequence_length])` and
`targets.append(int_songs[i+sequence_length])` for
`i in range(len(int_songs) - sequence_length)` (an empty range when the
difference is nonpositive), then one-hot encode the inputs with
`num_classes = len(set(int_songs))` and leave the targets as raw codes. -/
def generate_training_sequences (int_songs : List ℕ) (sequence_length : ℕ) :
    List (List (List ℕ)) × List ℕ :=
  let num_sequences := int_songs.length - sequence_length
  let windows := (List.range num_sequences).map
    (fun i => (int_songs.drop i).take sequence_length)
  let targets := (List.range num_sequences).map
    (fun i => int_songs.getD (i + sequence_length) 0)
  let vocabulary_size := int_songs.dedup.length
  (windows.map (fun w => w.map (to_categorical vocabulary_size)), targets)

/-- Space-joined concatenation of a list of strings (the specification's
"space-joined" token stream, used to phrase claims about
`create_single_file_dataset`). -/
def joinSp : List (List Char) → List Char
  | [] => []
  | [t] => t
  | t :: u :: later => t ++ ' ' :: joinSp (u :: later)

/-- The Dataset Assembler as the specification's words describe it for this
claim: the space-joined artifacts with a boundary run of
`boundary_length` *carry markers* (`"_"`) after each artifact.  Stated for
comparison with `create_single_file_dataset`, whose boundary run uses the
song delimiter `"/"` instead. -/
def assembleSpecCarry (artifacts : List (List Char)) (boundary_length : ℕ) : List Char :=
  joinSp (artifacts.flatMap (fun a => a :: List.replicate boundary_length ['_']))

/-! ## Helper lemmas -/

lemma pyInt_natCast (n : ℕ) : pyInt ((n : ℕ) : ℚ) = n := by
  simp [pyInt, Rat.num_natCast, Rat.den_natCast, Int.tdiv]

lemma stepsQ_eq_of_div (n : ℕ) (d time_step : ℚ) (h : d / time_step = (n : ℚ)) :
    stepsQ d time_step = n := by
  simp [stepsQ, h, pyInt_natCast]

lemma has_acceptable_durations_true_iff (song : List MEvent) (acceptable : List ℚ) :
    has_acceptable_durations song acceptable = true ↔
      ∀ e ∈ song, e.duration ∈ acceptable := by
  induction song with
  | nil => simp [has_acceptable_durations]
  | cons e later ih =>
    rw [has_acceptable_durations]
    by_cases hd : e.duration ∈ acceptable <;> simp [hd, ih]

lemma acceptable_stepsQ :
    ∀ d ∈ ACCEPTABLE_DURATIONS,
      (stepsQ d (1/4) : ℚ) = d / (1/4) ∧ 1 ≤ stepsQ d (1/4) := by
  have step : ∀ (n : ℕ) (d : ℚ), d / (1/4) = (n : ℚ) → 1 ≤ n →
      (stepsQ d (1/4) : ℚ) = d / (1/4) ∧ 1 ≤ stepsQ d (1/4) := by
    intro n d h hn
    rw [stepsQ_eq_of_div n d (1/4) h, h]
    exact ⟨rfl, hn⟩
  intro d hd
  simp only [ACCEPTABLE_DURATIONS, List.mem_cons, List.not_mem_nil, or_false] at hd
  rcases hd with rfl | rfl | rfl | rfl | rfl | rfl | rfl | rfl
  · exact step 1 _ (by norm_num) (by norm_num)
  · exact step 2 _ (by norm_num) (by norm_num)
  · exact step 3 _ (by norm_num) (by norm_num)
  · exact step 4 _ (by norm_num) (by norm_num)
  · exact step 6 _ (by norm_num) (by norm_num)
  · exact step 8 _ (by norm_num) (by norm_num)
  · exact step 12 _ (by norm_num) (by norm_num)
  · exact step 16 _ (by norm_num) (by norm_num)

lemma range_map_encodeStep (s : Token) (n : ℕ) (hn : 1 ≤ n) :
    (List.range n).map (fun step => if step = 0 then s else Token.carry)
      = s :: List.replicate (n - 1) Token.carry := by
  obtain ⟨m, rfl⟩ : ∃ m, n = m + 1 := ⟨n - 1, by omega⟩
  rw [List.range_succ_eq_map, List.map_cons, List.map_map]
  simp [Function.comp_def, Nat.succ_ne_zero, List.map_const']

/-! ## C6 — the Duration Filter is a pure membership predicate -/

/-- C6: for every score and allowed-duration set, `has_acceptable_durations`
returns `false` iff some event's quarter-length duration is not a member of
the allowed list, returns `true` iff every event's duration is allowed, and
returns `true` on a score with no events.  (It is a Lean function — a pure
predicate with no side effects.) -/
theorem claim6_duration_filter_iff (song : List MEvent) (acceptable : List ℚ) :
    (has_acceptable_durations song acceptable = false ↔
      ∃ e ∈ song, e.duration ∉ acceptable)
    ∧ (has_acceptable_durations song acceptable = true ↔
      ∀ e ∈ song, e.duration ∈ acceptable)
    ∧ has_acceptable_durations [] acceptable = true := by
  refine ⟨?_, has_acceptable_durations_true_iff song acceptable,
    by simp [has_acceptable_durations]⟩
  constructor
  · intro hf
    by_contra hne
    push_neg at hne
    have := (has_acceptable_durations_true_iff song acceptable).mpr hne
    rw [this] at hf
    exact absurd hf (by decide)
  · rintro ⟨e, he, hd⟩
    cases h : has_acceptable_durations song acceptable with
    | false => rfl
    | true => exact absurd ((has_acceptable_durations_true_iff song acceptable).mp h e he) hd

/-! ## C1 — time-step encoding of accepted scores -/

/-- C1: for every score accepted by the Duration Filter,
`encode_song(score, time_step=0.25)` processes the events in order and, for
each event, emits the event's symbol exactly once (the integer pitch for a
note, the rest marker for a rest, via `symbolOf`) followed by
`duration/time_step - 1` carry markers; `stepsQ` is exactly
`duration / time_step` on every event, and the total output length is the
total score duration divided by the time step. -/
theorem claim1_encode_accepted_song (song : List MEvent)
    (h : has_acceptable_durations song ACCEPTABLE_DURATIONS = true) :
    encode_song song (1/4)
        = song.flatMap
            (fun e => symbolOf e :: List.replicate (stepsQ e.duration (1/4) - 1) Token.carry)
      ∧ (∀ e ∈ song, (stepsQ e.duration (1/4) : ℚ) = e.duration / (1/4))
      ∧ ((encode_song song (1/4)).length : ℚ)
          = ((song.map MEvent.duration).sum) / (1/4) := by
  rw [has_acceptable_durations_true_iff] at h
  induction song with
  | nil => simp [encode_song]
  | cons e later ih =>
    have hd : e.duration ∈ ACCEPTABLE_DURATIONS := h e (List.mem_cons_self e later)
    have hlater : ∀ x ∈ later, x.duration ∈ ACCEPTABLE_DURATIONS :=
      fun x hx => h x (List.mem_cons_of_mem e hx)
    obtain ⟨ih1, ih2, ih3⟩ := ih hlater
    obtain ⟨hexact, hpos⟩ := acceptable_stepsQ e.duration hd
    refine ⟨?_, ?_, ?_⟩
    · simp only [encode_song, List.flatMap_cons] at ih1 ⊢
      rw [range_map_encodeStep _ _ hpos, ih1]
    · intro x hx
      rcases List.mem_cons.mp hx with rfl | hx
      · exact hexact
      · exact ih2 x hx
    · simp only [encode_song, List.flatMap_cons, List.length_append, List.length_map,
        List.length_range, List.map_cons, List.sum_cons] at ih3 ⊢
      push_cast
      rw [hexact, ih3, add_div]

/-- Witness for C1 at the one-note score `[Note(midi=60), duration=1.0]`:
the filter accepts it and the encoding is `60 _ _ _`. -/
theorem claim1_witness :
    encode_song [⟨.note 60, 1⟩] (1/4) = [Token.num 60, Token.carry, Token.carry, Token.carry] := by
  have h1 := (claim1_encode_accepted_song [⟨.note 60, 1⟩]
    (by norm_num [has_acceptable_durations, ACCEPTABLE_DURATIONS])).1
  have h4 : stepsQ (⟨EventKind.note 60, 1⟩ : MEvent).duration (1/4) = 4 := by
    show stepsQ ((1 : ℚ)) (1/4) = 4
    exact stepsQ_eq_of_div 4 1 (1/4) (by norm_num)
  rw [h1]
  simp only [List.flatMap_cons, List.flatMap_nil, List.append_nil]
  rw [h4]
  rfl

/-! ## C4 — there is no quantization-failure check -/

/-- C4, as stated, is false: the claim says an event whose duration is not
an exact multiple of the time step makes the encoder fail with
`NonQuantizableDurationError`.  The source computes
`steps = int(duration / time_step)` with no exactness check, so at the
concrete event `Note(midi=60)` of duration `3/10` (where
`duration / time_step = 6/5` is not an integer) it silently truncates and
emits the symbol once — a normal token list, not an error of any kind. -/
theorem claim4_counterexample :
    encode_song [⟨.note 60, 3/10⟩] (1/4) = [Token.num 60]
    ∧ ∀ n : ℕ, ((3 : ℚ)/10) / (1/4) ≠ (n : ℚ) := by
  have h65 : ((3 : ℚ)/10) / (1/4) = 6/5 := by norm_num
  have hnum : ((6 : ℚ)/5).num = 6 := by norm_num
  have hden : ((6 : ℚ)/5).den = 5 := by norm_num
  have hs : stepsQ (⟨EventKind.note 60, 3/10⟩ : MEvent).duration (1/4) = 1 := by
    show stepsQ ((3 : ℚ)/10) (1/4) = 1
    rw [stepsQ, pyInt, h65, hnum, hden]
    decide
  constructor
  · simp only [encode_song, List.flatMap_cons, List.flatMap_nil, List.append_nil]
    rw [hs]
    rfl
  · intro n hn
    rw [h65] at hn
    have h6 : (6 : ℚ) = (n : ℚ) * 5 := by
      field_simp at hn
      linarith
    have : (6 : ℕ) = n * 5 := by exact_mod_cast h6
    omega

/-- C4 amended: the Time-Step Encoder performs no quantization check and
never fails.  For every event it emits `int(duration / time_step)` tokens —
the symbol once and then carries when that truncated count is at least one,
and nothing at all when the duration is smaller than the time step. -/
theorem claim4_truncating_encoder (song : List MEvent) (time_step : ℚ) :
    encode_song song time_step
      = song.flatMap (fun e =>
          if stepsQ e.duration time_step = 0 then []
          else symbolOf e :: List.replicate (stepsQ e.duration time_step - 1) Token.carry) := by
  induction song with
  | nil => simp [encode_song]
  | cons e later ih =>
    simp only [encode_song, List.flatMap_cons] at ih ⊢
    rw [ih]
    by_cases h0 : stepsQ e.duration time_step = 0
    · simp [h0]
    · rw [if_neg h0, range_map_encodeStep _ _ (by omega)]

/-! ## C10 — short corpora produce no samples and no error -/

/-- C10: when the integer-encoded corpus has at most `sequence_length`
codes, the sliding-window loop runs over an empty range
(`len(int_songs) - sequence_length` is nonpositive), so the Sequence
Generator returns empty inputs and empty targets; being a total function,
it raises no error. -/
theorem claim10_short_corpus_empty (int_songs : List ℕ) (sequence_length : ℕ)
    (h : int_songs.length ≤ sequence_length) :
    generate_training_sequences int_songs sequence_length = ([], []) := by
  simp [generate_training_sequences, Nat.sub_eq_zero_of_le h]

/-- Witness for C10 at the two-code corpus `[0, 1]` with `L = 5`. -/
theorem claim10_witness :
    generate_training_sequences [0, 1] 5 = ([], []) :=
  claim10_short_corpus_empty [0, 1] 5 (by decide)

/-! ## C2 — shape and content of the training sequences -/

lemma to_categorical_length (num_classes code : ℕ) :
    (to_categorical num_classes code).length = num_classes := by
  simp [to_categorical]

lemma to_categorical_count_one (num_classes code : ℕ) (hc : code < num_classes) :
    (to_categorical num_classes code).count 1 = 1 := by
  induction num_classes with
  | zero => omega
  | succ V ih =>
    rw [to_categorical, List.range_succ, List.map_append, List.count_append]
    by_cases h : code = V
    · subst h
      have hz : ((List.range code).map (fun j => if j = code then 1 else 0)).count 1 = 0 := by
        rw [List.count_eq_zero]
        intro hmem
        rcases List.mem_map.mp hmem with ⟨j, hj, hval⟩
        have hne : j ≠ code := Nat.ne_of_lt (List.mem_range.mp hj)
        simp [hne] at hval
      simp [hz]
    · have hc' : code < V := by omega
      have hih := ih hc'
      rw [to_categorical] at hih
      have hV : (if V = code then (1 : ℕ) else 0) = 0 := if_neg (fun hh => h hh.symm)
      simp [hih, hV]

/-- C2: for every integer-encoded corpus with more than `L` codes (whose
codes all lie below the number of distinct codes
`V = len(set(int_songs))`, as the output of the Vocabulary Mapper does),
the Sequence Generator returns `len(codes) - L` inputs and targets; sample
`i`'s context is the slice `codes[i : i+L]` one-hot encoded over `V`,
sample `i`'s target is the raw integer `codes[i+L]`; every input sample has
shape `L × V` and every row is genuinely one-hot (a single `1`). -/
theorem claim2_training_sequences (int_songs : List ℕ) (L : ℕ)
    (h1 : L < int_songs.length)
    (h2 : ∀ c ∈ int_songs, c < int_songs.dedup.length) :
    ((generate_training_sequences int_songs L).1.length = int_songs.length - L)
    ∧ ((generate_training_sequences int_songs L).2.length = int_songs.length - L)
    ∧ (∀ i, i < int_songs.length - L →
        (generate_training_sequences int_songs L).1[i]?
            = some (((int_songs.drop i).take L).map (to_categorical int_songs.dedup.length))
        ∧ (generate_training_sequences int_songs L).2[i]? = int_songs[i + L]?)
    ∧ (∀ sample ∈ (generate_training_sequences int_songs L).1,
        sample.length = L
        ∧ ∀ row ∈ sample,
            row.length = int_songs.dedup.length ∧ row.count 1 = 1) := by
  refine ⟨by simp [generate_training_sequences], by simp [generate_training_sequences], ?_, ?_⟩
  · intro i hi
    have hlt : i + L < int_songs.length := by omega
    constructor
    · simp [generate_training_sequences, List.getElem?_map, List.getElem?_range, hi]
    · simp [generate_training_sequences, List.getElem?_map, List.getElem?_range, hi,
        List.getD, List.getElem?_eq_getElem hlt]
  · intro sample hsample
    simp only [generate_training_sequences, List.map_map, List.mem_map] at hsample
    obtain ⟨i, hi, rfl⟩ := hsample
    have hiN : i < int_songs.length - L := List.mem_range.mp hi
    constructor
    · simp only [Function.comp_def, List.length_map, List.length_take, List.length_drop]
      omega
    · intro row hrow
      simp only [Function.comp_def, List.mem_map] at hrow
      obtain ⟨c, hc, rfl⟩ := hrow
      have hcm : c ∈ int_songs := List.mem_of_mem_drop (List.mem_of_mem_take hc)
      exact ⟨to_categorical_length _ _, to_categorical_count_one _ _ (h2 c hcm)⟩

/-- Witness for C2 at the corpus `[0, 1, 0]` with `L = 2`: one sample, and
its target is the raw code `codes[2]`. -/
theorem claim2_witness :
    (generate_training_sequences [0, 1, 0] 2).1.length = [0, 1, 0].length - 2
    ∧ (generate_training_sequences [0, 1, 0] 2).2[0]? = [0, 1, 0][0 + 2]? :=
  ⟨(claim2_training_sequences [0, 1, 0] 2 (by decide) (by decide)).1,
   ((claim2_training_sequences [0, 1, 0] 2 (by decide) (by decide)).2.2.1 0 (by decide)).2⟩

/-! ## C3 — the vocabulary mapping is a bijection onto `0..V-1` -/

/-- C3: for every corpus text, `create_mapping` assigns codes whose list is
exactly `List.range V` (the contiguous set `{0, ..., V-1}`, no gaps, no
duplicates) where `V` is the number of distinct whitespace-delimited
tokens; its keys are exactly the distinct tokens of the corpus, each
occurring once — so the mapping is a bijection between the distinct tokens
and `0..V-1`. -/
theorem claim3_vocabulary_bijection (songs : List Char) :
    ((create_mapping songs).map Prod.snd = List.range ((splitWs songs).dedup.length))
    ∧ ((create_mapping songs).map Prod.fst = (splitWs songs).dedup)
    ∧ ((create_mapping songs).map Prod.fst).Nodup
    ∧ (∀ t, t ∈ (create_mapping songs).map Prod.fst ↔ t ∈ splitWs songs) := by
  have hsnd : (create_mapping songs).map Prod.snd
      = List.range ((splitWs songs).dedup.length) := by
    simp only [create_mapping, List.map_map]
    have hcomp : (Prod.snd ∘ fun p : ℕ × List Char => (p.2, p.1)) = Prod.fst := rfl
    rw [hcomp, List.enum_map_fst]
  have hfst : (create_mapping songs).map Prod.fst = (splitWs songs).dedup := by
    simp only [create_mapping, List.map_map]
    have hcomp : (Prod.fst ∘ fun p : ℕ × List Char => (p.2, p.1)) = Prod.snd := rfl
    rw [hcomp, List.enum_map_snd]
  refine ⟨hsnd, hfst, ?_, ?_⟩
  · rw [hfst]
    exact List.nodup_dedup _
  · intro t
    rw [hfst]
    exact List.mem_dedup

/-! ## C9 — corpus translation fails with `KeyError`, not `UnknownSymbolError` -/

lemma convertTokens_spec (mappings : List (List Char × ℕ)) (tokens : List (List Char)) :
    ((∃ e, convertTokens mappings tokens = .error e) ↔
      ∃ t ∈ tokens, dictGet mappings t = none)
    ∧ ((∀ t ∈ tokens, dictGet mappings t ≠ none) →
        convertTokens mappings tokens
          = .ok (tokens.map (fun t => (dictGet mappings t).getD 0)))
    ∧ (∀ e, convertTokens mappings tokens = .error e →
        ∃ t ∈ tokens, e = .keyError t ∧ dictGet mappings t = none) := by
  induction tokens with
  | nil => simp [convertTokens]
  | cons t later ih =>
    obtain ⟨ih1, ih2, ih3⟩ := ih
    refine ⟨⟨?_, ?_⟩, ?_, ?_⟩
    · rintro ⟨e, he⟩
      cases hd : dictGet mappings t with
      | none => exact ⟨t, List.mem_cons_self t later, hd⟩
      | some c =>
        rw [convertTokens, hd] at he
        cases hc : convertTokens mappings later with
        | ok cs => rw [hc] at he; exact absurd he (by simp)
        | error e' =>
          obtain ⟨t', ht', hnone⟩ := ih1.mp ⟨e', hc⟩
          exact ⟨t', List.mem_cons_of_mem t ht', hnone⟩
    · rintro ⟨t', ht', hnone⟩
      rcases List.mem_cons.mp ht' with rfl | hmem
      · exact ⟨.keyError t', by rw [convertTokens, hnone]⟩
      · cases hd : dictGet mappings t with
        | none => exact ⟨.keyError t, by rw [convertTokens, hd]⟩
        | some c =>
          obtain ⟨e, he⟩ := ih1.mpr ⟨t', hmem, hnone⟩
          exact ⟨e, by rw [convertTokens, hd, he]⟩
    · intro hall
      have hd : dictGet mappings t ≠ none := hall t (List.mem_cons_self t later)
      cases hd' : dictGet mappings t with
      | none => exact absurd hd' hd
      | some c =>
        have hlater := ih2 (fun x hx => hall x (List.mem_cons_of_mem t hx))
        rw [convertTokens, hd', hlater, List.map_cons, hd']
        rfl
    · intro e he
      rw [convertTokens] at he
      cases hd : dictGet mappings t with
      | none =>
        rw [hd] at he
        refine ⟨t, List.mem_cons_self t later, ?_, hd⟩
        cases he
        rfl
      | some c =>
        rw [hd] at he
        cases hc : convertTokens mappings later with
        | ok cs => rw [hc] at he; exact absurd he (by simp)
        | error e' =>
          rw [hc] at he
          obtain ⟨t', ht', he', hnone⟩ := ih3 e' hc
          refine ⟨t', List.mem_cons_of_mem t ht', ?_, hnone⟩
          cases he
          exact he'

/-- C9 as stated is false: the claim names `UnknownSymbolError`, but a
token with no mapping entry makes the dict subscript `mappings[symbol]`
raise Python's builtin `KeyError` (carrying the missing token); no
`UnknownSymbolError` class exists in the code.  Concretely, translating the
corpus `"a"` through an empty mapping fails with `KeyError("a")`. -/
theorem claim9_counterexample :
    convert_songs_to_int "a".data [] = .error (.keyError "a".data)
    ∧ (Except.error (PyExc.keyError "a".data) : Except PyExc (List ℕ))
        ≠ .error .unknownSymbolError := by
  constructor
  · rfl
  · intro h
    exact absurd (Except.error.inj h) (by decide)

/-- C9 amended: translating the corpus stream fails — with `KeyError` for
the first missing token — exactly when some token has no entry in the
mapping; otherwise every token is translated, in order, to its code. -/
theorem claim9_keyerror_translation (songs : List Char)
    (mappings : List (List Char × ℕ)) :
    ((∃ e, convert_songs_to_int songs mappings = .error e) ↔
      ∃ t ∈ splitWs songs, dictGet mappings t = none)
    ∧ ((∀ t ∈ splitWs songs, dictGet mappings t ≠ none) →
        convert_songs_to_int songs mappings
          = .ok ((splitWs songs).map (fun t => (dictGet mappings t).getD 0)))
    ∧ (∀ e, convert_songs_to_int songs mappings = .error e →
        ∃ t ∈ splitWs songs, e = .keyError t ∧ dictGet mappings t = none) :=
  convertTokens_spec mappings (splitWs songs)

/-- Witness for C9 at the corpus `"a b"` with a complete mapping: both
tokens are translated in order. -/
theorem claim9_witness :
    convert_songs_to_int "a b".data [(['a'], 0), (['b'], 1)] = .ok [0, 1] := by
  have h := (claim9_keyerror_translation "a b".data [(['a'], 0), (['b'], 1)]).2.1 (by decide)
  rw [h]
  rfl

/-! ## C5 — an unsupported mode fails, but with `UnboundLocalError` -/

/-- C5 as stated is false: the claim says a mode that is neither `"major"`
nor `"minor"` makes the Key Normalizer fail with an explicit
`UnsupportedModeError`.  No such class exists in the code: both `if`s are
skipped, the local `interval` is never assigned, and
`song.transpose(interval)` raises Python's `UnboundLocalError`.  Concretely
at a score whose resolved key is D dorian. -/
theorem claim5_counterexample :
    transpose ⟨none, ⟨62, "dorian".data⟩, []⟩ = .error .unboundLocalError
    ∧ transpose ⟨none, ⟨62, "dorian".data⟩, []⟩ ≠ .error .unsupportedModeError := by
  constructor
  · rfl
  · intro h
    rw [show transpose ⟨none, ⟨62, "dorian".data⟩, []⟩ = .error .unboundLocalError from rfl] at h
    exact absurd (Except.error.inj h) (by decide)

/-- C5 amended: for every score whose resolved key mode is neither
`"major"` nor `"minor"`, `transpose` does fail rather than silently pass
the score through — but with `UnboundLocalError` (the `interval` local is
never assigned), not with an explicit `UnsupportedModeError`. -/
theorem claim5_unbound_interval (song : Score)
    (h1 : (resolvedKey song).mode ≠ "major".data)
    (h2 : (resolvedKey song).mode ≠ "minor".data) :
    transpose song = .error .unboundLocalError := by
  simp [transpose, h1, h2]

/-- Witness for C5 at the D-dorian score. -/
theorem claim5_witness :
    transpose ⟨some ⟨62, "dorian".data⟩, ⟨60, "major".data⟩, []⟩ = .error .unboundLocalError :=
  claim5_unbound_interval ⟨some ⟨62, "dorian".data⟩, ⟨60, "major".data⟩, []⟩
    (by decide) (by decide)

/-! ## C8 — transposition lands on tonic C (major) or A (minor) -/

/-- C8: for every score whose resolved mode is major (resp. minor),
`transpose` succeeds with the score shifted by the interval from the
resolved tonic to `Pitch("C")` (resp. `Pitch("A")`); the resolved key of
the output has tonic C (MIDI 60) resp. A (MIDI 69), and every pitched event
was shifted by exactly that interval (rests are unaffected by
`shiftEvent`). -/
theorem claim8_canonical_tonic (song : Score) :
    ((resolvedKey song).mode = "major".data →
      transpose song = .ok (transposeBy song (pitchC - (resolvedKey song).tonic))
      ∧ (resolvedKey (transposeBy song (pitchC - (resolvedKey song).tonic))).tonic = pitchC
      ∧ (transposeBy song (pitchC - (resolvedKey song).tonic)).events
          = song.events.map (shiftEvent (pitchC - (resolvedKey song).tonic)))
    ∧ ((resolvedKey song).mode = "minor".data →
      transpose song = .ok (transposeBy song (pitchA - (resolvedKey song).tonic))
      ∧ (resolvedKey (transposeBy song (pitchA - (resolvedKey song).tonic))).tonic = pitchA
      ∧ (transposeBy song (pitchA - (resolvedKey song).tonic)).events
          = song.events.map (shiftEvent (pitchA - (resolvedKey song).tonic))) := by
  have hres : ∀ itv : ℤ,
      (resolvedKey (transposeBy song itv)).tonic = (resolvedKey song).tonic + itv := by
    intro itv
    cases hdk : song.declaredKey with
    | none => simp [resolvedKey, transposeBy, shiftKey, hdk]
    | some k => simp [resolvedKey, transposeBy, shiftKey, hdk]
  constructor
  · intro hm
    have hmm : (resolvedKey song).mode ≠ "minor".data := by
      rw [hm]
      decide
    refine ⟨by simp [transpose, hm, hmm], ?_, rfl⟩
    rw [hres]
    ring
  · intro hm
    refine ⟨by simp [transpose, hm], ?_, rfl⟩
    rw [hres]
    ring

/-- Witness for C8: a declared D-major score is shifted to tonic C, an
estimated E-minor score to tonic A. -/
theorem claim8_witness :
    transpose ⟨some ⟨62, "major".data⟩, ⟨62, "major".data⟩, [⟨.note 64, 1⟩]⟩
        = .ok (transposeBy ⟨some ⟨62, "major".data⟩, ⟨62, "major".data⟩, [⟨.note 64, 1⟩]⟩
            (pitchC - 62))
    ∧ transpose ⟨none, ⟨64, "minor".data⟩, [⟨.rest, 1/2⟩]⟩
        = .ok (transposeBy ⟨none, ⟨64, "minor".data⟩, [⟨.rest, 1/2⟩]⟩ (pitchA - 64)) :=
  ⟨((claim8_canonical_tonic ⟨some ⟨62, "major".data⟩, ⟨62, "major".data⟩,
      [⟨.note 64, 1⟩]⟩).1 rfl).1,
   ((claim8_canonical_tonic ⟨none, ⟨64, "minor".data⟩, [⟨.rest, 1/2⟩]⟩).2 rfl).1⟩

/-! ## C7 — the boundary run uses the `"/"` delimiter, not the carry marker -/

lemma assemble_foldl (delim : List Char) (l : List (List Char)) :
    ∀ init : List Char,
      l.foldl (fun acc s => acc ++ s ++ [' '] ++ delim) init
        = init ++ l.flatMap (fun s => s ++ [' '] ++ delim) := by
  induction l with
  | nil => intro init; simp
  | cons a t ih =>
    intro init
    rw [List.foldl_cons, ih, List.flatMap_cons]
    simp [List.append_assoc]

lemma replicate_delim_flatten (L : ℕ) :
    (List.replicate L ['/', ' ']).flatten
      = (List.replicate L ['/']).flatMap (fun t => t ++ [' ']) := by
  induction L with
  | zero => rfl
  | succ n ih => simp [List.replicate_succ, ih]

lemma flatMap_chunks (L : ℕ) (artifacts : List (List Char)) :
    artifacts.flatMap (fun s => s ++ [' '] ++ (List.replicate L ['/', ' ']).flatten)
      = (artifacts.flatMap (fun a => a :: List.replicate L ['/'])).flatMap
          (fun t => t ++ [' ']) := by
  induction artifacts with
  | nil => rfl
  | cons a t ih =>
    rw [List.flatMap_cons, List.flatMap_cons, ih, List.flatMap_append, List.flatMap_cons]
    rw [replicate_delim_flatten]

lemma dropLast_flatMap_space (ts : List (List Char)) :
    (ts.flatMap (fun t => t ++ [' '])).dropLast = joinSp ts := by
  induction ts with
  | nil => rfl
  | cons t later ih =>
    cases later with
    | nil => simp [joinSp]
    | cons u rest =>
      rw [List.flatMap_cons]
      have hne : (u :: rest).flatMap (fun t => t ++ [' ']) ≠ [] := by
        rw [List.flatMap_cons]
        simp
      rw [show t ++ [' '] ++ (u :: rest).flatMap (fun t => t ++ [' '])
            = (t ++ [' ']) ++ (u :: rest).flatMap (fun t => t ++ [' ']) by
          simp [List.append_assoc]]
      rw [List.dropLast_append_of_ne_nil _ hne, ih]
      simp [joinSp, List.append_assoc]

lemma create_single_eq_joinSp (artifacts : List (List Char)) (L : ℕ) :
    create_single_file_dataset artifacts L
      = joinSp (artifacts.flatMap (fun a => a :: List.replicate L ['/'])) := by
  simp only [create_single_file_dataset]
  rw [assemble_foldl, List.nil_append, flatMap_chunks, dropLast_flatMap_space]

lemma joinSp_ne_nil (t : List Char) (later : List (List Char)) (ht : t ≠ []) :
    joinSp (t :: later) ≠ [] := by
  cases later with
  | nil => simpa [joinSp] using ht
  | cons u rest => simp [joinSp]

lemma joinSp_edges (ts : List (List Char))
    (h : ∀ t ∈ ts, t ≠ [] ∧ t.head? ≠ some ' ' ∧ t.getLast? ≠ some ' ') :
    (joinSp ts).head? ≠ some ' ' ∧ (joinSp ts).getLast? ≠ some ' ' := by
  induction ts with
  | nil => simp [joinSp]
  | cons t later ih =>
    obtain ⟨ht_ne, ht_head, ht_last⟩ := h t (List.mem_cons_self t later)
    cases later with
    | nil => exact ⟨by simpa [joinSp] using ht_head, by simpa [joinSp] using ht_last⟩
    | cons u rest =>
      have hrest := fun x hx => h x (List.mem_cons_of_mem t hx)
      obtain ⟨ih_head, ih_last⟩ := ih hrest
      have hJne : joinSp (u :: rest) ≠ [] := joinSp_ne_nil u rest (hrest u (List.mem_cons_self u rest)).1
      constructor
      · cases t with
        | nil => exact absurd rfl ht_ne
        | cons c cs => simpa [joinSp] using ht_head
      · show (t ++ ' ' :: joinSp (u :: rest)).getLast? ≠ some ' '
        obtain ⟨j, js, hJ⟩ := List.exists_cons_of_ne_nil hJne
        rw [List.getLast?_append, hJ, List.getLast?_cons_cons]
        rw [hJ] at ih_last
        cases hgl : (j :: js).getLast? with
        | none => exact absurd (List.getLast?_eq_none_iff.mp hgl) (by simp)
        | some x =>
          rw [hgl] at ih_last
          simpa using ih_last

/-- C7 as stated is false: the claim says the boundary run inserted after
each artifact consists of carry markers (`"_"`).  The source inserts
`new_song_delimiter = "/ " * sequence_length` — runs of the song delimiter
`"/"`, a distinct symbol from the carry marker.  Concretely with one
artifact `"60"` and boundary length 1 the code produces `"60 /"`, not
`"60 _"`. -/
theorem claim7_counterexample :
    create_single_file_dataset ["60".data] 1 ≠ assembleSpecCarry ["60".data] 1 := by
  decide

/-- C7 amended: the assembled corpus is the space-joined concatenation of
the artifacts with a boundary run of exactly `boundary_length` `"/"`
delimiter tokens (not carry markers) after each artifact; and when every
artifact is a nonempty string that neither starts nor ends with a space
(as every nonempty encoded-song artifact is), the corpus text has no
leading or trailing whitespace character. -/
theorem claim7_assembler (artifacts : List (List Char)) (boundary_length : ℕ)
    (h : ∀ a ∈ artifacts, a ≠ [] ∧ a.head? ≠ some ' ' ∧ a.getLast? ≠ some ' ') :
    create_single_file_dataset artifacts boundary_length
      = joinSp (artifacts.flatMap (fun a => a :: List.replicate boundary_length ['/']))
    ∧ (create_single_file_dataset artifacts boundary_length).head? ≠ some ' '
    ∧ (create_single_file_dataset artifacts boundary_length).getLast? ≠ some ' ' := by
  have heq := create_single_eq_joinSp artifacts boundary_length
  have hedge : ∀ t ∈ artifacts.flatMap (fun a => a :: List.replicate boundary_length ['/']),
      t ≠ [] ∧ t.head? ≠ some ' ' ∧ t.getLast? ≠ some ' ' := by
    intro t ht
    rcases List.mem_flatMap.mp ht with ⟨a, ha, hmem⟩
    rcases List.mem_cons.mp hmem with rfl | hrep
    · exact h _ ha
    · rw [List.eq_of_mem_replicate hrep]
      exact ⟨by decide, by decide, by decide⟩
  obtain ⟨h1, h2⟩ := joinSp_edges _ hedge
  exact ⟨heq, by rw [heq]; exact h1, by rw [heq]; exact h2⟩

/-- Witness for C7 with the two artifacts `"60 _"` and `"72"` and boundary
length 2. -/
theorem claim7_witness :
    create_single_file_dataset ["60 _".data, "72".data] 2
      = joinSp (["60 _".data, "72".data].flatMap (fun a => a :: List.replicate 2 ['/'])) :=
  (claim7_assembler ["60 _".data, "72".data] 2 (by decide)).1

end Preprocess
